import Mathlib

/-!
# Verification of the PN-loss pipeline of `tensorflow_similarity`

A shallow embedding of the two source files under verification:

* `tensorflow_similarity/losses/pn_loss.py` — the `pn_loss` function and the
  `PNLoss` class constructor;
* `tensorflow_similarity/models/similarity_model.py` — the `create_index`
  embedding-output guard and the `compile` automatic distance resolution.

Tensors are embedded as lists: a label vector is a `List ℤ`, a pairwise
distance matrix is a `List (List α)` of rows, a boolean mask is a
`List (List Bool)`.  Floating point numbers are modelled as real numbers
(the mining machinery is kept polymorphic over a linear order so that it can
also be evaluated on decidable carriers such as `ℤ`).

The helper functions imported by `pn_loss.py` (`build_masks` from
`algebra.py`, `positive_distances`, `negative_distances` and `compute_loss`
from `losses/utils.py`) are not part of the two source files; they are
modelled from the specification, as marked in their doc comments.
-/

namespace TfSim

variable {α : Type} [LinearOrder α]

/-- Pair every entry of a row with its column index. -/
def indexed (row : List α) : List (ℕ × α) :=
  (List.range row.length).zip row

/-- Modelled from the spec: §4.3/§4.4 masked selection — the candidate
(index, distance) pairs of a row that the boolean mask allows.  Masked-out
entries are excluded from the subsequent reduction, matching the sentinel
substitution described in the spec. -/
def maskedCandidates (row : List α) (mask : List Bool) : List (ℕ × α) :=
  (indexed row).filter (fun p => mask.getD p.1 false)

/-- First pair attaining the minimal value; ties are broken towards the
smallest column index (the earliest pair wins), per the spec's tie-break
rule. -/
def selectMin : List (ℕ × α) → Option (ℕ × α)
  | [] => none
  | p :: ps =>
    match selectMin ps with
    | none => some p
    | some q => some (if q.2 < p.2 then q else p)

/-- First pair attaining the maximal value; ties are broken towards the
smallest column index. -/
def selectMax : List (ℕ × α) → Option (ℕ × α)
  | [] => none
  | p :: ps =>
    match selectMax ps with
    | none => some p
    | some q => some (if p.2 < q.2 then q else p)

theorem selectMin_eq_none {l : List (ℕ × α)} : selectMin l = none ↔ l = [] := by
  cases l with
  | nil => simp [selectMin]
  | cons a as =>
    simp only [selectMin]
    cases selectMin as <;> simp

theorem selectMin_mem {l : List (ℕ × α)} :
    ∀ {p : ℕ × α}, selectMin l = some p → p ∈ l := by
  induction l with
  | nil => intro p h; simp [selectMin] at h
  | cons a as ih =>
    intro p h
    simp only [selectMin] at h
    cases hs : selectMin as with
    | none =>
      rw [hs] at h
      simp only [Option.some.injEq] at h
      subst h
      exact List.mem_cons_self a as
    | some q =>
      rw [hs] at h
      simp only [Option.some.injEq] at h
      subst h
      split
      · exact List.mem_cons_of_mem _ (ih hs)
      · exact List.mem_cons_self a as

theorem selectMin_le {l : List (ℕ × α)} :
    ∀ {p : ℕ × α}, selectMin l = some p → ∀ q ∈ l, p.2 ≤ q.2 := by
  induction l with
  | nil => intro p h; simp [selectMin] at h
  | cons a as ih =>
    intro p h
    simp only [selectMin] at h
    cases hs : selectMin as with
    | none =>
      rw [hs] at h
      simp only [Option.some.injEq] at h
      subst h
      rw [selectMin_eq_none.mp hs]
      intro r hr
      rcases List.mem_cons.mp hr with rfl | hr
      · exact le_rfl
      · simp at hr
    | some q =>
      rw [hs] at h
      simp only [Option.some.injEq] at h
      subst h
      split
      · intro r hr
        rcases List.mem_cons.mp hr with rfl | hr
        · exact le_of_lt (by assumption)
        · exact ih hs r hr
      · intro r hr
        rcases List.mem_cons.mp hr with rfl | hr
        · exact le_rfl
        · exact le_trans (le_of_not_lt (by assumption)) (ih hs r hr)

/-- Turn an optional selection into the (distance, index) pair the miners
return.  Modelled from the spec: §4.3 — a row with no candidate (degenerate
batch) "selects index 0 and an undefined/zero distance"; we use distance 0. -/
def unwrapSel [Zero α] : Option (ℕ × α) → α × ℕ
  | some (j, d) => (d, j)
  | none => (0, 0)

/-- Modelled from the spec: §4.3 — `positive_distances` of
`losses/utils.py` is not under src/.  `hard` picks the farthest same-class
column, `easy` the closest; per §4.7 strategy names are validated only at
construction, so any other string is not rejected here and selects like
`easy`. -/
def selectPosRow [Zero α] (strategy : String) (row : List α) (mask : List Bool) :
    α × ℕ :=
  unwrapSel ((if strategy == "hard" then selectMax else selectMin)
    (maskedCandidates row mask))

/-- Modelled from the spec: §4.3 — row-wise positive mining over the whole
distance matrix, returning the selected distances and column indices. -/
def positive_distances [Zero α] (strategy : String) (D : List (List α))
    (posMask : List (List Bool)) : List α × List ℕ :=
  let sel := List.zipWith (selectPosRow strategy) D posMask
  (sel.map Prod.fst, sel.map Prod.snd)

/-- Modelled from the spec: §4.4 — `negative_distances` of
`losses/utils.py` is not under src/.  `hard` picks the closest
different-class column, `easy` the farthest.  `semi-hard` picks the minimum
negative distance strictly greater than the anchor's selected positive
distance; the call site in `pn_loss.py` passes only the positive mask, so
the selected positive distance is taken to be the masked maximum (the `hard`
positive of §4.3, the default strategy).  When no negative exceeds the
positive distance, it falls back to the minimum over all valid negatives.
Per §4.7 other strategy strings are not rejected here and select like
`semi-hard`. -/
def selectNegRow [Zero α] (strategy : String) (row : List α)
    (negMask posMask : List Bool) : α × ℕ :=
  if strategy == "hard" then unwrapSel (selectMin (maskedCandidates row negMask))
  else if strategy == "easy" then unwrapSel (selectMax (maskedCandidates row negMask))
  else
    let posd := (unwrapSel (selectMax (maskedCandidates row posMask))).1
    let cands := maskedCandidates row negMask
    match selectMin (cands.filter (fun c => posd < c.2)) with
    | some (j, d) => (d, j)
    | none => unwrapSel (selectMin cands)

/-- Modelled from the spec: §4.4 — row-wise negative mining over the whole
distance matrix. -/
def negative_distances [Zero α] (strategy : String) (D : List (List α))
    (negMask posMask : List (List Bool)) : List α × List ℕ :=
  let sel := List.zipWith (fun row mm => selectNegRow strategy row mm.1 mm.2)
    D (negMask.zip posMask)
  (sel.map Prod.fst, sel.map Prod.snd)

/-- Modelled from the spec: §4.2 — `build_masks` of `algebra.py` is not
under src/.  `PositiveMask[i][j]` holds iff the labels agree (the diagonal
is forced off when `remove_diagonal` is set and the two batches have the
same size); `NegativeMask` is the pointwise negation of label agreement. -/
def build_masks (query_labels key_labels : List ℤ) (remove_diagonal : Bool) :
    List (List Bool) × List (List Bool) :=
  ((List.range query_labels.length).map fun i =>
      (List.range key_labels.length).map fun j =>
        (query_labels.getD i 0 == key_labels.getD j 0) &&
          !(remove_diagonal && (query_labels.length == key_labels.length) && (i == j)),
   (List.range query_labels.length).map fun i =>
      (List.range key_labels.length).map fun j =>
        !(query_labels.getD i 0 == key_labels.getD j 0))

/-- Models `tf.gather_nd` on a rank-2 tensor with a list of (row, column)
index pairs: entry `i` of the result is `D[pairs[i].1][pairs[i].2]`. -/
def gather_nd [Zero α] (D : List (List α)) (pairs : List (ℕ × ℕ)) : List α :=
  pairs.map fun p => (D.getD p.1 []).getD p.2 0

/-- Lines 108–115 of `pn_loss.py`: stack the positive and negative indices
into pairs, gather the pos–neg cross distances from the pairwise distance
matrix, and take the element-wise minimum with the mined negative
distances. -/
def effective_neg_distances [Zero α] (D : List (List α))
    (pos_idxs neg_idxs : List ℕ) (neg_dists : List α) : List α :=
  List.zipWith min (gather_nd D (pos_idxs.zip neg_idxs)) neg_dists

/-- Modelled from the spec: §4.6 — `compute_loss` of `losses/utils.py` is
not under src/.  With a margin `m` the per-anchor loss is the triplet hinge
`max (p − n + m) 0`; without a margin it is the softplus
`log (1 + exp (p − n))`; the batch loss is the mean of the per-anchor
losses. -/
noncomputable def compute_loss (pos_dists neg_dists : List ℝ)
    (margin : Option ℝ) : ℝ :=
  let losses := List.zipWith (fun p n =>
    match margin with
    | some m => max (p - n + m) 0
    | none => Real.log (1 + Real.exp (p - n))) pos_dists neg_dists
  losses.sum / losses.length

/-- The keyword arguments of `pn_loss` that carry a default in its Python
signature (lines 42–45 of `pn_loss.py`). -/
structure PnLossKwArgs where
  remove_diagonal : Bool := true
  positive_mining_strategy : String := "hard"
  negative_mining_strategy : String := "semi-hard"
  margin : Option ℝ := none

/-- The `pn_loss` function of `pn_loss.py` (lines 36–120): pairwise
distances from the injected distance function, masks, positive and negative
mining, the pos–neg cross-term combination, and the final loss reduction.
The `batch_size` passed to `build_masks` in the source is recomputed inside
our `build_masks` model. -/
noncomputable def pn_loss {E : Type} (query_labels : List ℤ)
    (query_embeddings : List E) (key_labels : List ℤ) (key_embeddings : List E)
    (distance : List E → List E → List (List ℝ)) (kw : PnLossKwArgs) : ℝ :=
  let pairwise_distances := distance query_embeddings key_embeddings
  let masks := build_masks query_labels key_labels kw.remove_diagonal
  let pos := positive_distances kw.positive_mining_strategy pairwise_distances masks.1
  let neg := negative_distances kw.negative_mining_strategy pairwise_distances
    masks.2 masks.1
  let neg_dists := effective_neg_distances pairwise_distances pos.2 neg.2 neg.1
  compute_loss pos.1 neg_dists kw.margin

/-- The keyword arguments of `PNLoss.__init__` with their defaults
(lines 152–159 of `pn_loss.py`). -/
structure PNLossKwArgs where
  distance : String := "cosine"
  positive_mining_strategy : String := "hard"
  negative_mining_strategy : String := "semi-hard"
  margin : Option ℝ := none
  name : String := "pn_loss"

/-- The configuration a successfully constructed `PNLoss` hands to its
`MetricLoss` superclass as `fn_kwargs` (note: `remove_diagonal` is not among
them). -/
structure PNLossConfig where
  distance : String
  positive_mining_strategy : String
  negative_mining_strategy : String
  margin : Option ℝ
  name : String

/-- `PNLoss.__init__` (lines 180–201 of `pn_loss.py`): validate the two
mining strategies and record the configuration.  The distance
canonicalization `distances.get(distance)` is an external registry lookup
(out of scope, `distances.py` is not under src/); the model keeps the
distance name, assuming it is valid. -/
def PNLoss_init (kw : PNLossKwArgs) : Except String PNLossConfig :=
  if kw.positive_mining_strategy ∉ (["easy", "hard"] : List String) then
    Except.error "Invalid positive mining strategy."
  else if kw.negative_mining_strategy ∉ (["easy", "hard", "semi-hard"] : List String) then
    Except.error "Invalid negative mining strategy."
  else
    Except.ok
      { distance := kw.distance
        positive_mining_strategy := kw.positive_mining_strategy
        negative_mining_strategy := kw.negative_mining_strategy
        margin := kw.margin
        name := kw.name }

/-- Calling a constructed `PNLoss`: the `MetricLoss` wrapper (external
collaborator, §2 of the spec) forwards the stored `fn_kwargs` to `pn_loss`;
`remove_diagonal` is not among them, so `pn_loss`'s own default applies.
The resolved distance function is passed in explicitly since the registry is
out of scope. -/
noncomputable def PNLoss_call {E : Type} (cfg : PNLossConfig)
    (dist : List E → List E → List (List ℝ)) (query_labels : List ℤ)
    (query_embeddings : List E) (key_labels : List ℤ)
    (key_embeddings : List E) : ℝ :=
  pn_loss query_labels query_embeddings key_labels key_embeddings dist
    { positive_mining_strategy := cfg.positive_mining_strategy
      negative_mining_strategy := cfg.negative_mining_strategy
      margin := cfg.margin }

/-- The embedding-output guard of `SimilarityModel.create_index`
(lines 311–315 of `similarity_model.py`): raise `ValueError` when an
`embedding_output` is given and is strictly greater than the number of
model outputs. -/
def create_index_guard (embedding_output : Option ℤ) (num_outputs : ℕ) :
    Except String Unit :=
  match embedding_output with
  | some eo =>
    if (num_outputs : ℤ) < eo then
      Except.error "Embedding_output value exceed number of model outputs"
    else Except.ok ()
  | none => Except.ok ()

/-- A loss object as seen by `SimilarityModel.compile`: it may or may not
carry a `distance` attribute (metric losses do, plain Keras losses do
not). -/
structure LossObject where
  distance : Option String

/-- The `loss` argument of `SimilarityModel.compile`: absent, a single loss
object, or a list of loss objects. -/
inductive CompileLossArg where
  | noneArg : CompileLossArg
  | single : LossObject → CompileLossArg
  | list : List LossObject → CompileLossArg

/-- The `distance="auto"` branch of `SimilarityModel.compile`
(lines 203–218 of `similarity_model.py`): with no loss the distance defaults
to cosine; otherwise the first loss's `distance` attribute is read, and a
missing attribute (`AttributeError`) is turned into a `ValueError`.  An
empty loss list makes `loss[0]` fail in the source (an `IndexError`,
modelled as the last error case). -/
def resolve_auto_distance : CompileLossArg → Except String String
  | CompileLossArg.noneArg => Except.ok "cosine"
  | CompileLossArg.single l =>
    match l.distance with
    | some d => Except.ok d
    | none =>
      Except.error "distance='auto' only works if the first loss is a metric loss"
  | CompileLossArg.list ls =>
    match ls.head? with
    | some l =>
      match l.distance with
      | some d => Except.ok d
      | none =>
        Except.error "distance='auto' only works if the first loss is a metric loss"
    | none => Except.error "list index out of range"

/-- Helper: `PNLoss_init` fails exactly when one of the two mining-strategy
names is outside its documented enumeration. -/
theorem PNLoss_init_error_iff (kw : PNLossKwArgs) :
    (∃ e, PNLoss_init kw = Except.error e) ↔
      (kw.positive_mining_strategy ∉ (["easy", "hard"] : List String) ∨
       kw.negative_mining_strategy ∉ (["easy", "hard", "semi-hard"] : List String)) := by
  by_cases h1 : kw.positive_mining_strategy ∈ (["easy", "hard"] : List String) <;>
    by_cases h2 : kw.negative_mining_strategy ∈ (["easy", "hard", "semi-hard"] : List String) <;>
    simp [PNLoss_init, h1, h2]

/-- C4: constructing a `PNLoss` (with a valid distance) fails at construction
time if and only if the positive mining strategy is outside {easy, hard} or
the negative mining strategy is outside {easy, hard, semi-hard}; moreover a
call with `positive_mining_strategy = "bogus"` still runs the full pipeline
down to the loss reducer — no strategy re-validation happens at call
time. -/
theorem PNLoss_init_validates (kw : PNLossKwArgs) :
    ((∃ e, PNLoss_init kw = Except.error e) ↔
      (kw.positive_mining_strategy ∉ (["easy", "hard"] : List String) ∨
       kw.negative_mining_strategy ∉ (["easy", "hard", "semi-hard"] : List String)))
    ∧ ∀ (E : Type) (ql : List ℤ) (qe : List E) (kl : List ℤ) (ke : List E)
        (dist : List E → List E → List (List ℝ)) (rd : Bool) (ns : String)
        (margin : Option ℝ),
        pn_loss ql qe kl ke dist ⟨rd, "bogus", ns, margin⟩ =
          compute_loss
            (positive_distances "bogus" (dist qe ke) (build_masks ql kl rd).1).1
            (effective_neg_distances (dist qe ke)
              (positive_distances "bogus" (dist qe ke) (build_masks ql kl rd).1).2
              (negative_distances ns (dist qe ke) (build_masks ql kl rd).2
                (build_masks ql kl rd).1).2
              (negative_distances ns (dist qe ke) (build_masks ql kl rd).2
                (build_masks ql kl rd).1).1)
            margin :=
  ⟨PNLoss_init_error_iff kw, fun _ _ _ _ _ _ _ _ _ => rfl⟩

theorem PNLoss_init_validates_witness :
    ∃ e, PNLoss_init ⟨"cosine", "easy", "bogus", none, "pn_loss"⟩ =
      Except.error e :=
  (PNLoss_init_validates ⟨"cosine", "easy", "bogus", none, "pn_loss"⟩).1.mpr
    (Or.inr (by decide))

/-- C6: `pn_loss` is a pure function of its arguments — with a
side-effect-free distance function (modelled as a function, read only at the
given embeddings), two invocations on identical inputs give identical
outputs, and the result depends on the distance object only through its
value at the given query/key embeddings. -/
theorem pn_loss_deterministic {E : Type} (ql : List ℤ) (qe : List E)
    (kl : List ℤ) (ke : List E)
    (dist1 dist2 : List E → List E → List (List ℝ)) (kw : PnLossKwArgs)
    (h : dist1 qe ke = dist2 qe ke) :
    pn_loss ql qe kl ke dist1 kw = pn_loss ql qe kl ke dist2 kw := by
  unfold pn_loss
  rw [h]

theorem pn_loss_deterministic_witness :
    pn_loss [0] [0] [0] [(0 : ℕ)] (fun _ _ => [[1]]) ⟨true, "hard", "semi-hard", none⟩ =
      pn_loss [0] [0] [0] [(0 : ℕ)]
        (fun a _ => if a.length = 1 then [[1]] else []) ⟨true, "hard", "semi-hard", none⟩ :=
  pn_loss_deterministic [0] [0] [0] [(0 : ℕ)] (fun _ _ => [[1]])
    (fun a _ => if a.length = 1 then [[1]] else []) ⟨true, "hard", "semi-hard", none⟩
    (by simp)

/-- C7: the defaults of the loss interface — `remove_diagonal` defaults to
`true`, the positive strategy to `"hard"`, the negative strategy to
`"semi-hard"`, and `margin` to absent, on the `pn_loss` signature and on the
`PNLoss` constructor; a constructed `PNLoss` does not pass
`remove_diagonal`, so its calls use `pn_loss`'s default `true`. -/
theorem pn_loss_defaults :
    (({} : PnLossKwArgs) =
      { remove_diagonal := true, positive_mining_strategy := "hard",
        negative_mining_strategy := "semi-hard", margin := none })
    ∧ (({} : PNLossKwArgs) =
      { distance := "cosine", positive_mining_strategy := "hard",
        negative_mining_strategy := "semi-hard", margin := none,
        name := "pn_loss" })
    ∧ ∀ (E : Type) (cfg : PNLossConfig)
        (dist : List E → List E → List (List ℝ)) (ql : List ℤ) (qe : List E)
        (kl : List ℤ) (ke : List E),
        PNLoss_call cfg dist ql qe kl ke =
          pn_loss ql qe kl ke dist
            { remove_diagonal := true,
              positive_mining_strategy := cfg.positive_mining_strategy,
              negative_mining_strategy := cfg.negative_mining_strategy,
              margin := cfg.margin } :=
  ⟨rfl, rfl, fun _ _ _ _ _ _ _ => rfl⟩

/-- C8: the module-level `pn_loss` performs no strategy validation — for
every pair of strategy strings it runs the mining pipeline and returns the
reduced loss; the membership checks live only in the `PNLoss`
constructor, which fails for any strategy string outside the documented
enumerations. -/
theorem pn_loss_no_strategy_validation {E : Type} (ql : List ℤ) (qe : List E)
    (kl : List ℤ) (ke : List E) (dist : List E → List E → List (List ℝ))
    (rd : Bool) (ps ns : String) (margin : Option ℝ) (dname nm : String) :
    pn_loss ql qe kl ke dist ⟨rd, ps, ns, margin⟩ =
      compute_loss (positive_distances ps (dist qe ke) (build_masks ql kl rd).1).1
        (effective_neg_distances (dist qe ke)
          (positive_distances ps (dist qe ke) (build_masks ql kl rd).1).2
          (negative_distances ns (dist qe ke) (build_masks ql kl rd).2
            (build_masks ql kl rd).1).2
          (negative_distances ns (dist qe ke) (build_masks ql kl rd).2
            (build_masks ql kl rd).1).1)
        margin
    ∧ (ps ∉ (["easy", "hard"] : List String) ∨
        ns ∉ (["easy", "hard", "semi-hard"] : List String) →
        ∃ e, PNLoss_init ⟨dname, ps, ns, margin, nm⟩ = Except.error e) :=
  ⟨rfl, fun h => (PNLoss_init_error_iff ⟨dname, ps, ns, margin, nm⟩).mpr h⟩

theorem pn_loss_no_strategy_validation_witness :
    ∃ e, PNLoss_init ⟨"cosine", "bogus", "semi-hard", none, "pn_loss"⟩ =
      Except.error e :=
  (pn_loss_no_strategy_validation [0] [(0 : ℕ)] [0] [0] (fun _ _ => [[1]]) true
    "bogus" "semi-hard" none "cosine" "pn_loss").2 (Or.inl (by decide))

/-- C9: the `create_index` guard raises exactly when an `embedding_output`
is supplied and is strictly greater than the number of model outputs; in
particular `embedding_output = num_outputs` passes the guard although the
valid output positions are `0 … num_outputs − 1`. -/
theorem create_index_guard_spec (embedding_output : Option ℤ)
    (num_outputs : ℕ) :
    ((∃ e, create_index_guard embedding_output num_outputs = Except.error e) ↔
      ∃ v, embedding_output = some v ∧ (num_outputs : ℤ) < v)
    ∧ create_index_guard (some (num_outputs : ℤ)) num_outputs =
        Except.ok () := by
  constructor
  · cases embedding_output with
    | none => simp [create_index_guard]
    | some eo =>
      by_cases h : (num_outputs : ℤ) < eo <;> simp [create_index_guard, h]
  · simp [create_index_guard]

theorem create_index_guard_spec_witness :
    create_index_guard (some ((2 : ℕ) : ℤ)) 2 = Except.ok () :=
  (create_index_guard_spec (some ((2 : ℕ) : ℤ)) 2).2

/-- C10: with `distance="auto"`, `SimilarityModel.compile` resolves the
index distance to cosine when no loss is given, and otherwise reads the
first loss's `distance` attribute, turning a missing attribute into a
`ValueError`. -/
theorem compile_auto_distance_spec :
    (resolve_auto_distance CompileLossArg.noneArg = Except.ok "cosine")
    ∧ (∀ (l : LossObject) (d : String), l.distance = some d →
        resolve_auto_distance (CompileLossArg.single l) = Except.ok d)
    ∧ (∀ l : LossObject, l.distance = none →
        ∃ e, resolve_auto_distance (CompileLossArg.single l) = Except.error e)
    ∧ (∀ (l : LossObject) (ls : List LossObject) (d : String),
        l.distance = some d →
        resolve_auto_distance (CompileLossArg.list (l :: ls)) = Except.ok d)
    ∧ (∀ (l : LossObject) (ls : List LossObject), l.distance = none →
        ∃ e, resolve_auto_distance (CompileLossArg.list (l :: ls)) =
          Except.error e) := by
  refine ⟨rfl, ?_, ?_, ?_, ?_⟩
  · intro l d h; simp [resolve_auto_distance, h]
  · intro l h; simp [resolve_auto_distance, h]
  · intro l ls d h; simp [resolve_auto_distance, h]
  · intro l ls h; simp [resolve_auto_distance, h]

theorem compile_auto_distance_spec_witness :
    resolve_auto_distance (CompileLossArg.single ⟨some "euclidean"⟩) =
      Except.ok "euclidean" :=
  compile_auto_distance_spec.2.1 ⟨some "euclidean"⟩ "euclidean" rfl

/-- C5: the effective negative distance produced by the cross-term
combination is bounded by the raw mined negative distance at every anchor,
being the minimum of that distance and the pos–neg cross distance. -/
theorem effective_neg_le_mined [Zero α] (D : List (List α))
    (pos_idxs neg_idxs : List ℕ) (neg_dists : List α) (i : ℕ)
    (hi : i < (effective_neg_distances D pos_idxs neg_idxs neg_dists).length)
    (hn : i < neg_dists.length) :
    (effective_neg_distances D pos_idxs neg_idxs neg_dists)[i] ≤
      neg_dists[i] := by
  unfold effective_neg_distances at hi ⊢
  rw [List.getElem_zipWith]
  exact min_le_right _ _

theorem effective_neg_le_mined_witness :
    (effective_neg_distances [[(5 : ℤ), 1], [2, 3]] [0, 1] [1, 0] [4, 9]).get
        ⟨0, by decide⟩ ≤ ([4, 9] : List ℤ).get ⟨0, by decide⟩ :=
  effective_neg_le_mined [[(5 : ℤ), 1], [2, 3]] [0, 1] [1, 0] [4, 9] 0
    (by decide) (by decide)

/-- C1: `pn_loss` gathers the pos–neg cross distance of each anchor at row
`positiveIndex[i]` and column `negativeIndex[i]` of the pairwise distance
matrix, and the effective negative distance it passes to the loss reducer
is the element-wise minimum of this cross distance and the mined negative
distance. -/
theorem pn_loss_cross_term {E : Type} (ql : List ℤ) (qe : List E)
    (kl : List ℤ) (ke : List E) (dist : List E → List E → List (List ℝ))
    (kw : PnLossKwArgs) (D : List (List ℝ))
    (masks : List (List Bool) × List (List Bool)) (pos neg : List ℝ × List ℕ)
    (i : ℕ) (hD : D = dist qe ke)
    (hmasks : masks = build_masks ql kl kw.remove_diagonal)
    (hpos : pos = positive_distances kw.positive_mining_strategy D masks.1)
    (hneg : neg = negative_distances kw.negative_mining_strategy D masks.2 masks.1)
    (hi : i < (effective_neg_distances D pos.2 neg.2 neg.1).length)
    (hp : i < pos.2.length) (hn : i < neg.2.length) (hd : i < neg.1.length) :
    pn_loss ql qe kl ke dist kw =
      compute_loss pos.1 (effective_neg_distances D pos.2 neg.2 neg.1) kw.margin
    ∧ (effective_neg_distances D pos.2 neg.2 neg.1)[i] =
        min ((D.getD pos.2[i] []).getD neg.2[i] 0) neg.1[i] := by
  subst hD hmasks hpos hneg
  refine ⟨rfl, ?_⟩
  unfold effective_neg_distances gather_nd at hi ⊢
  rw [List.getElem_zipWith, List.getElem_map, List.getElem_zip]

theorem pn_loss_cross_term_witness :
    pn_loss [0, 1] [0, 1] [0, 1] ([0, 1] : List ℕ) (fun _ _ => [[0, 2], [2, 0]])
        ⟨false, "hard", "hard", none⟩ =
      compute_loss
        (positive_distances "hard" [[0, 2], [2, 0]]
          (build_masks [0, 1] [0, 1] false).1).1
        (effective_neg_distances [[0, 2], [2, 0]]
          (positive_distances "hard" [[0, 2], [2, 0]]
            (build_masks [0, 1] [0, 1] false).1).2
          (negative_distances "hard" [[0, 2], [2, 0]]
            (build_masks [0, 1] [0, 1] false).2
            (build_masks [0, 1] [0, 1] false).1).2
          (negative_distances "hard" [[0, 2], [2, 0]]
            (build_masks [0, 1] [0, 1] false).2
            (build_masks [0, 1] [0, 1] false).1).1)
        none :=
  (pn_loss_cross_term [0, 1] [0, 1] [0, 1] ([0, 1] : List ℕ)
    (fun _ _ => [[0, 2], [2, 0]]) ⟨false, "hard", "hard", none⟩
    [[0, 2], [2, 0]] (build_masks [0, 1] [0, 1] false)
    (positive_distances "hard" [[0, 2], [2, 0]]
      (build_masks [0, 1] [0, 1] false).1)
    (negative_distances "hard" [[0, 2], [2, 0]]
      (build_masks [0, 1] [0, 1] false).2 (build_masks [0, 1] [0, 1] false).1)
    0 rfl rfl rfl rfl
    (by simp [effective_neg_distances, gather_nd, positive_distances,
      negative_distances, build_masks])
    (by simp [positive_distances, build_masks])
    (by simp [negative_distances, build_masks])
    (by simp [negative_distances, build_masks])).1

/-- C3: the loss reducer — with a finite margin `m` the per-anchor loss is
the triplet hinge `max 0 (p − n + m)`, without a margin it is the softplus
`log (1 + exp (p − n))`, and the batch loss is the sum of the per-anchor
losses divided by their number. -/
theorem compute_loss_spec (pos_dists neg_dists : List ℝ) (margin : Option ℝ) :
    (∀ m : ℝ, margin = some m →
      compute_loss pos_dists neg_dists margin =
        (List.zipWith (fun p n => max 0 (p - n + m)) pos_dists neg_dists).sum /
          ((min pos_dists.length neg_dists.length : ℕ) : ℝ))
    ∧ (margin = none →
      compute_loss pos_dists neg_dists margin =
        (List.zipWith (fun p n => Real.log (1 + Real.exp (p - n))) pos_dists
          neg_dists).sum /
          ((min pos_dists.length neg_dists.length : ℕ) : ℝ)) := by
  constructor
  · intro m hm
    subst hm
    have hf : (fun p n : ℝ => max (p - n + m) 0) =
        fun p n : ℝ => max 0 (p - n + m) := by
      funext p n
      exact max_comm _ _
    simp only [compute_loss, List.length_zipWith, hf]
  · intro hm
    subst hm
    simp only [compute_loss, List.length_zipWith]

theorem compute_loss_spec_witness :
    compute_loss [2] [1] (some 1) =
      (List.zipWith (fun p n => max 0 (p - n + 1)) [(2 : ℝ)] [(1 : ℝ)]).sum /
        ((min ([(2 : ℝ)]).length ([(1 : ℝ)]).length : ℕ) : ℝ) :=
  (compute_loss_spec [2] [1] (some 1)).1 1 rfl

/-- Helper: row-level characterization of semi-hard negative selection —
when some masked negative is strictly farther than the selected (hard)
positive, the minimum such distance is chosen; otherwise the minimum over
all masked negatives (the hardest-negative fallback). -/
theorem selectNegRow_semiHard_spec [Zero α] (row : List α) (nm pm : List Bool)
    (hne : maskedCandidates row nm ≠ []) :
    ((maskedCandidates row nm).filter
        (fun c => (unwrapSel (selectMax (maskedCandidates row pm))).1 < c.2) ≠ [] →
      (selectNegRow "semi-hard" row nm pm).1 ∈
        ((maskedCandidates row nm).filter
          (fun c => (unwrapSel (selectMax (maskedCandidates row pm))).1 < c.2)).map
          Prod.snd ∧
      ∀ c ∈ (maskedCandidates row nm).filter
          (fun c => (unwrapSel (selectMax (maskedCandidates row pm))).1 < c.2),
        (selectNegRow "semi-hard" row nm pm).1 ≤ c.2)
    ∧ ((maskedCandidates row nm).filter
        (fun c => (unwrapSel (selectMax (maskedCandidates row pm))).1 < c.2) = [] →
      (selectNegRow "semi-hard" row nm pm).1 ∈
        (maskedCandidates row nm).map Prod.snd ∧
      ∀ c ∈ maskedCandidates row nm,
        (selectNegRow "semi-hard" row nm pm).1 ≤ c.2) := by
  have hsel : selectNegRow "semi-hard" row nm pm =
      (match selectMin ((maskedCandidates row nm).filter
          (fun c => (unwrapSel (selectMax (maskedCandidates row pm))).1 < c.2)) with
        | some (j, d) => (d, j)
        | none => unwrapSel (selectMin (maskedCandidates row nm))) := rfl
  rw [hsel]
  cases hmin : selectMin ((maskedCandidates row nm).filter
      (fun c => (unwrapSel (selectMax (maskedCandidates row pm))).1 < c.2)) with
  | some p =>
    obtain ⟨j, d⟩ := p
    constructor
    · intro _
      exact ⟨List.mem_map_of_mem Prod.snd (selectMin_mem hmin),
        fun c hc => selectMin_le hmin c hc⟩
    · intro hfil
      rw [hfil] at hmin
      simp [selectMin] at hmin
  | none =>
    have hfil := selectMin_eq_none.mp hmin
    constructor
    · intro h
      exact absurd hfil h
    · intro _
      have hns : selectMin (maskedCandidates row nm) ≠ none := by
        simp only [ne_eq, selectMin_eq_none]
        exact hne
      obtain ⟨q, hq⟩ := Option.ne_none_iff_exists'.mp hns
      obtain ⟨j, d⟩ := q
      rw [hq]
      exact ⟨List.mem_map_of_mem Prod.snd (selectMin_mem hq),
        fun c hc => selectMin_le hq c hc⟩

/-- C2: semi-hard negative mining — for an anchor `i` with at least one
valid negative, the selected negative distance is the minimum masked
negative distance strictly greater than the anchor's selected positive
distance when one exists, and otherwise the minimum over all masked
negatives (the hardest-negative fallback); in both cases it is a value of a
masked candidate, never an unmasked sentinel. -/
theorem semi_hard_negative_mining [Zero α] (D : List (List α))
    (negMask posMask : List (List Bool)) (i : ℕ) (row : List α)
    (nm : List Bool) (cands : List (ℕ × α)) (posd ndv : α)
    (hD : i < D.length) (hn : i < negMask.length) (hp : i < posMask.length)
    (hrow : row = D.getD i []) (hnm : nm = negMask.getD i [])
    (hcands : cands = maskedCandidates row nm)
    (hposd : posd = (positive_distances "hard" D posMask).1.getD i 0)
    (hndv : ndv = (negative_distances "semi-hard" D negMask posMask).1.getD i 0)
    (hne : cands ≠ []) :
    (cands.filter (fun c => posd < c.2) ≠ [] →
      ndv ∈ (cands.filter (fun c => posd < c.2)).map Prod.snd ∧
      ∀ c ∈ cands.filter (fun c => posd < c.2), ndv ≤ c.2)
    ∧ (cands.filter (fun c => posd < c.2) = [] →
      ndv ∈ cands.map Prod.snd ∧ ∀ c ∈ cands, ndv ≤ c.2) := by
  subst hrow hnm hcands hposd hndv
  have hc2 : (positive_distances "hard" D posMask).1.getD i 0 =
      (unwrapSel (selectMax
        (maskedCandidates (D.getD i []) (posMask.getD i [])))).1 := by
    simp only [positive_distances]
    rw [List.getD_eq_getElem _ _
      (by simp only [List.length_map, List.length_zipWith, lt_min_iff]
          exact ⟨hD, hp⟩)]
    simp only [List.getElem_map, List.getElem_zipWith]
    rw [List.getD_eq_getElem D [] hD, List.getD_eq_getElem posMask [] hp]
    rfl
  have hc1 : (negative_distances "semi-hard" D negMask posMask).1.getD i 0 =
      (selectNegRow "semi-hard" (D.getD i []) (negMask.getD i [])
        (posMask.getD i [])).1 := by
    simp only [negative_distances]
    rw [List.getD_eq_getElem _ _
      (by simp only [List.length_map, List.length_zipWith, List.length_zip,
            lt_min_iff]
          exact ⟨hD, hn, hp⟩)]
    simp only [List.getElem_map, List.getElem_zipWith, List.getElem_zip]
    rw [List.getD_eq_getElem D [] hD, List.getD_eq_getElem negMask [] hn,
      List.getD_eq_getElem posMask [] hp]
  rw [hc1, hc2]
  exact selectNegRow_semiHard_spec (D.getD i []) (negMask.getD i [])
    (posMask.getD i []) hne

theorem semi_hard_negative_mining_witness :
    (3 : ℤ) ∈ (([(1, 3), (3, 5)] : List (ℕ × ℤ)).filter
        (fun c => (1 : ℤ) < c.2)).map Prod.snd ∧
      ∀ c ∈ ([(1, 3), (3, 5)] : List (ℕ × ℤ)).filter (fun c => (1 : ℤ) < c.2),
        (3 : ℤ) ≤ c.2 :=
  (semi_hard_negative_mining [[0, 3, 1, 5]] [[false, true, false, true]]
    [[false, false, true, false]] 0 [0, 3, 1, 5] [false, true, false, true]
    [(1, 3), (3, 5)] 1 3 (by decide) (by decide) (by decide) (by decide)
    (by decide) (by decide) (by decide) (by decide) (by decide)).1 (by decide)

end TfSim
